import Mathlib

/-!
Verification of the chronolist checklist/time-tracking engine.

The development shallowly embeds the two Go sources of the repository:

* the single-level variant (file src/unnamed/part_000): per-item status state
  machine with toggle, restart, and a global pause/resume sweep
  (namespace Chronolist);
* the two-level task/item variant (src/main.go): task aggregation from child
  item statuses and the cursor-driven update loop (namespace TwoLevel).

Instants and durations are modelled as Int (Go time.Time / time.Duration are
integer nanosecond counts; no overflow is relevant at the magnitudes involved).
A nil *time.Time pointer is modelled as Option Int with none for nil.
-/

namespace Chronolist

/-- Item status as in the Go sources: NotStarted, Started, Done. -/
inductive ItemStatus where
  | notStarted
  | started
  | done
deriving DecidableEq, Repr

/-- The item record of src/unnamed/part_000:
text, status, createdAt, checkedAt (nil-able pointer), frozenDuration. -/
structure Item where
  text : String
  status : ItemStatus
  createdAt : Int
  checkedAt : Option Int
  frozenDuration : Int
deriving DecidableEq, Repr

/-- Space-key toggle on a single item, src/unnamed/part_000 lines 220-246.
The parameter now stands for the single time.Now() reading that the executed
branch performs, and paused for m.paused. -/
def toggleItem (now : Int) (paused : Bool) (i : Item) : Item :=
  match i.status with
  | .notStarted =>
      { i with
        status := .started
        createdAt := if i.frozenDuration > 0 then now - i.frozenDuration else now
        checkedAt := none }
  | .started =>
      let checked : Int := if paused then i.createdAt + i.frozenDuration else now
      { i with
        checkedAt := some checked
        frozenDuration := checked - i.createdAt
        status := .done }
  | .done =>
      -- Do NOT reset createdAt or frozenDuration (comment in the source);
      -- checkedAt is not cleared either.
      { i with status := .notStarted }

/-- Restart command on the item under the cursor, src/unnamed/part_000
lines 196-203: createdAt := now, frozenDuration := 0, checkedAt := nil.
The status field is not assigned. -/
def restartItem (now : Int) (i : Item) : Item :=
  { i with createdAt := now, frozenDuration := 0, checkedAt := none }

/-- The pause half of the \\p handler, lines 179-184, idealized to a single
now reading for the whole sweep (the per-item clock readings the code actually
performs are modelled separately by pauseResumeClocked). -/
def pauseSweep (now : Int) (items : List Item) : List Item :=
  items.map fun it =>
    if it.status = .started then { it with frozenDuration := now - it.createdAt } else it

/-- The resume half of the \\p handler, lines 186-193: every Started item has
createdAt shifted forward by the same elapsedPaused. -/
def resumeSweep (elapsedPaused : Int) (items : List Item) : List Item :=
  items.map fun it =>
    if it.status = .started then { it with createdAt := it.createdAt + elapsedPaused } else it

/-- The mutable state of the single-level model that the claims concern:
the item list, the global pause flag and the pause anchor. -/
structure Model where
  items : List Item
  paused : Bool
  pausedAt : Int
deriving DecidableEq, Repr

/-- Commands of the single-level update loop: adding an item (enter with
nonempty input), toggling the item at an index (space), restarting the item at
an index (enter with input \\r), and the \\p pause/resume key. -/
inductive Cmd where
  | add (text : String)
  | toggle (idx : Nat)
  | restart (idx : Nat)
  | pauseResume
deriving DecidableEq, Repr

/-- One step of the update loop of src/unnamed/part_000 for the commands
above, with now the single instant of the step.  Index guards mirror the
cursor guards of the source (space requires a nonempty list with the cursor in
range, \\r requires 0 <= cursor < len). -/
def stepCmd (now : Int) (c : Cmd) (m : Model) : Model :=
  match c with
  | .add text =>
      { m with items := m.items ++ [⟨text, .notStarted, now, none, 0⟩] }
  | .toggle idx =>
      match m.items[idx]? with
      | some it => { m with items := m.items.set idx (toggleItem now m.paused it) }
      | none => m
  | .restart idx =>
      match m.items[idx]? with
      | some it => { m with items := m.items.set idx (restartItem now it) }
      | none => m
  | .pauseResume =>
      if m.paused = false then
        { m with paused := true, pausedAt := now, items := pauseSweep now m.items }
      else
        { m with paused := false, items := resumeSweep (now - m.pausedAt) m.items }

/-- Initial model: empty database, not paused. -/
def initModel : Model := ⟨[], false, 0⟩

/-- Run a list of timestamped commands from a model. -/
def runTrace (tr : List (Int × Cmd)) (m : Model) : Model :=
  match tr with
  | [] => m
  | (t, c) :: rest => runTrace rest (stepCmd t c m)

/-- The duration displayed for an item by the View function,
src/unnamed/part_000 lines 289-300, with now the time.Since reading. -/
def displayDuration (now : Int) (paused : Bool) (it : Item) : Int :=
  if it.status = .done ∧ it.checkedAt ≠ none then it.frozenDuration
  else if it.status = .started then
    (if paused then it.frozenDuration else now - it.createdAt)
  else it.frozenDuration

/-!
Clock-accurate model of the \\p handler.  The Go code takes one reading
now := time.Now() at the start, but inside the pause loop it computes each
Started item frozenDuration with time.Since(createdAt), which performs a fresh
time.Now() call per item.  The function clock gives the value returned by the
k-th time.Now() call of this command (k = 0 is the initial reading).
-/

/-- The pause loop of lines 179-184 with explicit clock readings: the i-th
Started item (in list order) uses reading number k+i, where k is the index of
the first reading available to the loop. -/
def pauseLoop (clock : Nat → Int) (k : Nat) (items : List Item) : List Item :=
  match items with
  | [] => []
  | it :: rest =>
      if it.status = .started then
        { it with frozenDuration := clock k - it.createdAt } :: pauseLoop clock (k + 1) rest
      else
        it :: pauseLoop clock k rest

/-- The whole \\p handler, lines 174-194, with explicit clock readings.
Reading 0 is the now variable; the pause branch then performs one further
reading per Started item (time.Since), while the resume branch performs no
further reading. -/
def pauseResumeClocked (clock : Nat → Int) (m : Model) : Model :=
  if m.paused = false then
    { m with paused := true, pausedAt := clock 0, items := pauseLoop clock 1 m.items }
  else
    { m with paused := false, items := resumeSweep (clock 0 - m.pausedAt) m.items }

/-!
Ghost-instrumented semantics for the active-time accounting claim.  Each item
carries a ghost accumulator: the total duration during which the item was
Started while the system was not globally paused.  Time passes between
commands; gAdvance moves the ghost clock from the time of the previous command
to the time of the next one, adding the delta to the accumulator of every item
that is currently accruing active time.
-/

/-- Ghost state: each item is paired with its accrued active time, and last
records the instant up to which the accumulators have been advanced. -/
structure GState where
  items : List (Item × Int)
  paused : Bool
  pausedAt : Int
  last : Int
deriving DecidableEq, Repr

/-- Advance the ghost accumulators to instant t: an item accrues active time
exactly while its status is Started and the system is not globally paused. -/
def gAdvance (t : Int) (s : GState) : GState :=
  { s with
    last := t
    items := s.items.map fun p =>
      if p.1.status = .started ∧ s.paused = false then (p.1, p.2 + (t - s.last)) else p }

/-- Apply a command at instant now to the ghost state.  The item component
evolves exactly as in stepCmd; the ghost accumulator is carried along
unchanged (restart resets it together with the timing fields). -/
def gApply (now : Int) (c : Cmd) (s : GState) : GState :=
  match c with
  | .add text =>
      { s with items := s.items ++ [(⟨text, .notStarted, now, none, 0⟩, 0)] }
  | .toggle idx =>
      match s.items[idx]? with
      | some p => { s with items := s.items.set idx (toggleItem now s.paused p.1, p.2) }
      | none => s
  | .restart idx =>
      match s.items[idx]? with
      | some p => { s with items := s.items.set idx (restartItem now p.1, 0) }
      | none => s
  | .pauseResume =>
      if s.paused = false then
        { s with
          paused := true
          pausedAt := now
          items := s.items.map fun p =>
            if p.1.status = .started then
              ({ p.1 with frozenDuration := now - p.1.createdAt }, p.2)
            else p }
      else
        { s with
          paused := false
          items := s.items.map fun p =>
            if p.1.status = .started then
              ({ p.1 with createdAt := p.1.createdAt + (now - s.pausedAt) }, p.2)
            else p }

/-- A ghost step: let time pass until t, then apply the command at t. -/
def gstep (t : Int) (c : Cmd) (s : GState) : GState :=
  gApply t c (gAdvance t s)

/-- Project the ghost state back to the program state. -/
def toModel (s : GState) : Model :=
  ⟨s.items.map Prod.fst, s.paused, s.pausedAt⟩

/-- Side condition of the accounting claim, restricted as the counterexample
forces: the commands are add, toggle and pause/resume (no restart), and no
item is toggled from NotStarted to Started while the global pause is active. -/
def startOkayG (s : GState) (c : Cmd) : Bool :=
  match c with
  | .toggle idx =>
      match s.items[idx]? with
      | some p => if p.1.status = .notStarted ∧ s.paused = true then false else true
      | none => true
  | .restart _ => false
  | _ => true

/-- Ghost states reachable by monotone-time traces of add, toggle and
pause/resume commands in which no item is started during a global pause. -/
inductive ReachC3 : GState → Prop where
  | init (t0 : Int) : ReachC3 ⟨[], false, 0, t0⟩
  | step (s : GState) (t : Int) (c : Cmd) :
      ReachC3 s → s.last ≤ t → startOkayG s c = true → ReachC3 (gstep t c s)

/-- The per-item invariant tying the program fields to the ghost accumulator a
at the instant last. -/
def itemInv (paused : Bool) (pausedAt last : Int) (it : Item) (a : Int) : Prop :=
  0 ≤ a ∧
  (it.status = .notStarted → a = it.frozenDuration) ∧
  (it.status = .done → a = it.frozenDuration) ∧
  (it.status = .started → paused = false → it.createdAt + a = last) ∧
  (it.status = .started → paused = true →
    a = it.frozenDuration ∧ it.createdAt + it.frozenDuration = pausedAt)

/-- The global ghost invariant. -/
def gInv (s : GState) : Prop :=
  (s.paused = true → s.pausedAt ≤ s.last) ∧
  ∀ p ∈ s.items, itemInv s.paused s.pausedAt s.last p.1 p.2

/-- Run a list of timestamped commands in the ghost semantics. -/
def gRunTrace (tr : List (Int × Cmd)) (s : GState) : GState :=
  match tr with
  | [] => s
  | (t, c) :: rest => gRunTrace rest (gstep t c s)

/-- A trace that makes frozenDuration negative: an item is toggled to Started
in the middle of a global pause, so the resume sweep over-shifts its createdAt
past the pause instant, and the next pause captures a negative elapsed time. -/
def negFrozenTrace : List (Int × Cmd) :=
  [(0, .add "a"), (0, .pauseResume), (10, .toggle 0), (20, .pauseResume),
   (25, .pauseResume), (30, .toggle 0), (35, .toggle 0)]

/-- A plain toggle cycle reaching Done and then NotStarted. -/
def toggleCycleTrace : List (Int × Cmd) :=
  [(0, .add "a"), (0, .toggle 0), (5, .toggle 0), (6, .toggle 0)]

/-- A plain toggle run reaching Done. -/
def doneTrace : List (Int × Cmd) :=
  [(0, .add "a"), (0, .toggle 0), (5, .toggle 0)]

/-- Ghost trace in which an item is toggled to Started during a global pause:
add at 0, pause at 0, start at 10, resume at 20, stop at 40. -/
def startDuringPauseTrace : List (Int × Cmd) :=
  [(0, .add "a"), (0, .pauseResume), (10, .toggle 0), (20, .pauseResume), (40, .toggle 0)]

/-- Ghost trace with one pause/resume cycle while the item runs:
add at 0, start at 0, pause at 5, resume at 15, stop at 20. -/
def pauseCycleTrace : List (Int × Cmd) :=
  [(0, .add "a"), (0, .toggle 0), (5, .pauseResume), (15, .pauseResume), (20, .toggle 0)]

/-- The ghost state reached by pauseCycleTrace. -/
def pauseCycleState : GState :=
  gRunTrace pauseCycleTrace ⟨[], false, 0, 0⟩

/-- A strictly increasing clock: the k-th time.Now() call returns k. -/
def unitClock : Nat → Int := fun k => (k : Int)

/-- Two items both Started with identical createdAt, system not paused. -/
def twoStartedModel : Model :=
  ⟨[⟨"a", .started, 0, none, 0⟩, ⟨"b", .started, 0, none, 0⟩], false, 0⟩

end Chronolist

namespace TwoLevel

open Chronolist (ItemStatus)

/-- The task row of src/main.go: id, code, title, derived status. -/
structure DbTask where
  id : Int
  code : String
  title : String
  status : ItemStatus
deriving DecidableEq, Repr

/-- The item row of src/main.go: id, task id, text, status, timestamps,
frozen duration. -/
structure DbItem where
  id : Int
  taskId : Int
  text : String
  status : ItemStatus
  createdAt : Int
  checkedAt : Option Int
  frozenDuration : Int
deriving DecidableEq, Repr

/-- The sqlite database of src/main.go, with autoincrement id counters. -/
structure DB where
  tasks : List DbTask
  items : List DbItem
  nextTaskId : Int
  nextItemId : Int
deriving DecidableEq, Repr

/-- SELECT id, code, title, status FROM tasks (loadTasks). -/
def loadTasks (db : DB) : List DbTask := db.tasks

/-- SELECT ... FROM items WHERE task_id = taskID (loadItems). -/
def loadItems (db : DB) (taskId : Int) : List DbItem :=
  db.items.filter fun it => it.taskId = taskId

/-- INSERT INTO tasks (saveTask); a fresh task starts NotStarted. -/
def saveTask (db : DB) (code title : String) : DB :=
  { db with
    tasks := db.tasks ++ [⟨db.nextTaskId, code, title, .notStarted⟩]
    nextTaskId := db.nextTaskId + 1 }

/-- INSERT INTO items (saveItem). -/
def saveItem (db : DB) (it : DbItem) : DB :=
  { db with
    items := db.items ++ [{ it with id := db.nextItemId }]
    nextItemId := db.nextItemId + 1 }

/-- DELETE FROM items WHERE task_id = ?; DELETE FROM tasks WHERE id = ?
(deleteTask, cascading). -/
def deleteTaskDb (db : DB) (taskId : Int) : DB :=
  { db with
    items := db.items.filter fun it => ¬ it.taskId = taskId
    tasks := db.tasks.filter fun t => ¬ t.id = taskId }

/-- DELETE FROM items WHERE id = ? (deleteItem). -/
def deleteItemDb (db : DB) (itemId : Int) : DB :=
  { db with items := db.items.filter fun it => ¬ it.id = itemId }

/-- UPDATE items SET status=..., created_at=..., checked_at=...,
frozen_duration=... WHERE id = ? (the space-key write-back). -/
def updateItemDb (db : DB) (it : DbItem) : DB :=
  { db with items := db.items.map fun old => if old.id = it.id then it else old }

/-- The pure aggregation rule inside updateTaskStatus, src/main.go lines
131-138, applied to the multiset of child-item statuses: total is COUNT(*),
done and started the counts of the respective statuses. -/
def aggregateStatus (statuses : List ItemStatus) : ItemStatus :=
  let total := statuses.length
  let done := statuses.count .done
  let started := statuses.count .started
  if done = total ∧ total > 0 then .done
  else if started > 0 ∨ done > 0 then .started
  else .notStarted

/-- Statement of the aggregation rule in the words of the specification:
Done if the task has at least one item and every item is Done; otherwise
Started if at least one item is Started or at least one is Done; otherwise
NotStarted (in particular for an empty task). -/
def specAggregate (statuses : List ItemStatus) : ItemStatus :=
  if statuses ≠ [] ∧ ∀ st ∈ statuses, st = ItemStatus.done then .done
  else if (∃ st ∈ statuses, st = ItemStatus.started) ∨ (∃ st ∈ statuses, st = ItemStatus.done)
    then .started
  else .notStarted

/-- updateTaskStatus, src/main.go lines 122-140: recompute and persist the
derived status of one task from its item rows. -/
def updateTaskStatusDb (db : DB) (taskId : Int) : DB :=
  let newStatus := aggregateStatus ((loadItems db taskId).map DbItem.status)
  { db with
    tasks := db.tasks.map fun t => if t.id = taskId then { t with status := newStatus } else t }

/-- The in-memory model of src/main.go: cached task list, selected task id
(0 = task view), cached item list of the selected task, cursor, and the
current textinput value.  Inputs are modelled after TrimSpace. -/
structure Model where
  tasks : List DbTask
  selectedTaskID : Int
  items : List DbItem
  cursor : Nat
  inputValue : String
  db : DB
deriving DecidableEq, Repr

/-- Keys the Update handler dispatches on. -/
inductive Key where
  | enter
  | esc
  | up
  | down
  | space
deriving DecidableEq, Repr

/-- Messages of the update loop: typing into the textinput, or a key press. -/
inductive Msg where
  | setInput (s : String)
  | key (k : Key)
deriving DecidableEq, Repr

/-- Indexing as Go performs it: out-of-range access aborts (index out of
range panic), modelled as Except.error. -/
def getIdx {α : Type} (l : List α) (i : Nat) : Except Unit α :=
  match l[i]? with
  | some x => Except.ok x
  | none => Except.error ()

/-- Space-key toggle of src/main.go lines 257-269.  Unlike the single-level
variant there is no pause branch (the paused field of main.go is never set)
and no frozenDuration carry-over on start. -/
def toggleItemMain (now : Int) (i : DbItem) : DbItem :=
  match i.status with
  | .notStarted => { i with status := .started, createdAt := now }
  | .started =>
      { i with
        status := .done
        checkedAt := some now
        frozenDuration := now - i.createdAt }
  | .done => { i with status := .notStarted }

/-- The task code fmt.Sprintf("T%02d", n). -/
def taskCode (n : Nat) : String :=
  if n < 10 then "T0" ++ toString n else "T" ++ toString n

/-- The switch msg.String() part of Update, src/main.go lines 209-284. -/
def keySwitch (now : Int) (k : Key) (m : Model) : Except Unit Model :=
  match k with
  | .enter =>
      if m.selectedTaskID = 0 then
        if m.tasks.length > 0 ∧ m.inputValue = "" then do
          let tk ← getIdx m.tasks m.cursor
          let items := loadItems m.db tk.id
          pure { m with selectedTaskID := tk.id, items := items, inputValue := "", cursor := 0 }
        else if ¬ m.inputValue = "" then
          let db := saveTask m.db (taskCode (m.tasks.length + 1)) m.inputValue
          pure { m with db := db, tasks := loadTasks db, inputValue := "" }
        else pure m
      else
        if ¬ m.inputValue = "" then
          let it : DbItem :=
            ⟨0, m.selectedTaskID, m.inputValue, .notStarted, now, none, 0⟩
          let db := updateTaskStatusDb (saveItem m.db it) m.selectedTaskID
          pure { m with db := db, items := loadItems db m.selectedTaskID, inputValue := "" }
        else pure m
  | .esc =>
      pure { m with
        selectedTaskID := 0
        items := []
        inputValue := ""
        tasks := loadTasks m.db }
  | .up =>
      pure { m with cursor := if 0 < m.cursor then m.cursor - 1 else m.cursor }
  | .down =>
      if m.selectedTaskID = 0 then
        pure { m with cursor := if m.cursor + 1 < m.tasks.length then m.cursor + 1 else m.cursor }
      else
        pure { m with cursor := if m.cursor + 1 < m.items.length then m.cursor + 1 else m.cursor }
  | .space =>
      if ¬ m.selectedTaskID = 0 ∧ m.items.length > 0 then do
        let it ← getIdx m.items m.cursor
        let it2 := toggleItemMain now it
        let db := updateTaskStatusDb (updateItemDb m.db it2) m.selectedTaskID
        pure { m with items := m.items.set m.cursor it2, db := db }
      else pure m

/-- One KeyMsg step of Update, src/main.go lines 183-284.  Before the key
switch the handler inspects the textinput value: \\q quits (modelled as a
no-op), \\d deletes the task or item under the cursor and returns, falling
through to the key switch when neither delete branch applies. -/
def step2 (now : Int) (msg : Msg) (m : Model) : Except Unit Model :=
  match msg with
  | .setInput s => pure { m with inputValue := s }
  | .key k =>
      if m.inputValue = "\\q" then pure m
      else if m.inputValue = "\\d" then
        if m.selectedTaskID = 0 ∧ m.tasks.length > 0 then do
          let tk ← getIdx m.tasks m.cursor
          let db := deleteTaskDb m.db tk.id
          pure { m with
            db := db
            tasks := loadTasks db
            cursor := if 0 < m.cursor then m.cursor - 1 else m.cursor
            inputValue := "" }
        else if ¬ m.selectedTaskID = 0 ∧ m.items.length > 0 then do
          let it ← getIdx m.items m.cursor
          let db := updateTaskStatusDb (deleteItemDb m.db it.id) m.selectedTaskID
          pure { m with
            db := db
            items := loadItems db m.selectedTaskID
            cursor := if 0 < m.cursor then m.cursor - 1 else m.cursor
            inputValue := "" }
        else keySwitch now k m
      else keySwitch now k m

/-- The initial model: empty database, task view, cursor 0. -/
def initModel2 : Model :=
  { tasks := []
    selectedTaskID := 0
    items := []
    cursor := 0
    inputValue := ""
    db := ⟨[], [], 1, 1⟩ }

/-- Run a list of timestamped messages, stopping at the first abort. -/
def runTrace2 (tr : List (Int × Msg)) (m : Model) : Except Unit Model :=
  match tr with
  | [] => pure m
  | (t, msg) :: rest =>
      match step2 t msg m with
      | .ok m2 => runTrace2 rest m2
      | .error e => Except.error e

/-- True when the run aborted with an index-out-of-range access. -/
def isError (r : Except Unit Model) : Bool :=
  match r with
  | .error _ => true
  | .ok _ => false

/-- Key sequence: create task t, select it, add items a and b, move the
cursor down to the second item, leave the item view with esc (the cursor is
not reset), then press enter with empty input in the task view.  The final
enter indexes m.tasks with cursor 1 while only one task exists. -/
def escCursorTrace : List (Int × Msg) :=
  [(0, .setInput "t"), (0, .key .enter), (0, .key .enter),
   (0, .setInput "a"), (0, .key .enter), (0, .setInput "b"), (0, .key .enter),
   (0, .key .down), (0, .key .esc), (0, .key .enter)]

end TwoLevel


/-! ## Theorems -/

open Chronolist

/-- C1: for every item with status Started, the toggle command transitions it
to Done: when the global pause flag is set checkedAt becomes
createdAt + frozenDuration (the snapshot taken at pause time), otherwise
checkedAt becomes now; then frozenDuration becomes checkedAt - createdAt and
the status becomes Done, so that afterwards
frozenDuration = checkedAt - createdAt holds on both execution paths. -/
theorem c1_started_toggle_to_done :
    ∀ (now : Int) (paused : Bool) (it : Item), it.status = .started →
      toggleItem now paused it =
        { it with
          status := .done
          checkedAt := some (if paused then it.createdAt + it.frozenDuration else now)
          frozenDuration :=
            (if paused then it.createdAt + it.frozenDuration else now) - it.createdAt } ∧
      ∃ c, (toggleItem now paused it).checkedAt = some c ∧
        (toggleItem now paused it).frozenDuration = c - (toggleItem now paused it).createdAt := by
  intro now paused it h
  constructor
  · simp [toggleItem, h]
  · refine ⟨if paused then it.createdAt + it.frozenDuration else now, ?_, ?_⟩ <;>
      simp [toggleItem, h]

/-- C1 witness: a concrete Started item toggled while not paused and while
paused, evaluated. -/
theorem c1_witness :
    toggleItem 9 false ⟨"x", .started, 2, none, 0⟩ = ⟨"x", .done, 2, some 9, 7⟩ := by
  have h := c1_started_toggle_to_done 9 false ⟨"x", .started, 2, none, 0⟩ rfl
  simpa using h.1

/-- C2 (amended): for every item with status NotStarted and nonnegative
frozenDuration, the toggle command sets the status to Started, createdAt to
now - frozenDuration, and checkedAt to null.  (When frozenDuration is
negative, which is reachable only by starting an item during a global pause,
the code sets createdAt to now instead.) -/
theorem c2_notStarted_toggle_resumes :
    ∀ (now : Int) (paused : Bool) (it : Item),
      it.status = .notStarted → 0 ≤ it.frozenDuration →
      toggleItem now paused it =
        { it with
          status := .started
          createdAt := now - it.frozenDuration
          checkedAt := none } := by
  intro now paused it h hfd
  by_cases hpos : it.frozenDuration > 0
  · simp [toggleItem, h, hpos]
  · have h0 : it.frozenDuration = 0 := le_antisymm (not_lt.mp hpos) hfd
    simp [toggleItem, h, hpos, h0]

/-- C2 counterexample: a reachable NotStarted item with frozenDuration -5
(obtained by starting the item during a global pause) is toggled at instant
40; the code sets createdAt to 40, not to now - frozenDuration = 45. -/
theorem c2_counterexample :
    (runTrace negFrozenTrace initModel).items =
      [⟨"a", .notStarted, 30, some 25, -5⟩] ∧
    (stepCmd 40 (.toggle 0) (runTrace negFrozenTrace initModel)).items =
      [⟨"a", .started, 40, none, -5⟩] ∧
    (40 : Int) ≠ 40 - (-5 : Int) := by
  refine ⟨by decide, by decide, by decide⟩

/-- C2 witness: a concrete NotStarted item with frozenDuration 4 toggled at
instant 10 resumes with createdAt 6. -/
theorem c2_witness :
    toggleItem 10 false ⟨"x", .notStarted, 3, none, 4⟩ = ⟨"x", .started, 6, none, 4⟩ := by
  have h := c2_notStarted_toggle_resumes 10 false ⟨"x", .notStarted, 3, none, 4⟩ rfl (by decide)
  simpa using h

/-- C7: for every item with status Done, the toggle command changes only the
status field, setting it to NotStarted; createdAt, frozenDuration and the
prior checkedAt value are retained unchanged.  This holds in both the
single-level and the two-level variant. -/
theorem c7_done_toggle_only_status :
    (∀ (now : Int) (paused : Bool) (it : Item), it.status = .done →
        toggleItem now paused it = { it with status := .notStarted }) ∧
    (∀ (now : Int) (it : TwoLevel.DbItem), it.status = .done →
        TwoLevel.toggleItemMain now it = { it with status := .notStarted }) := by
  constructor
  · intro now paused it h
    simp [toggleItem, h]
  · intro now it h
    simp [TwoLevel.toggleItemMain, h]

/-- C7 witness: concrete Done items toggled in each variant. -/
theorem c7_witness :
    toggleItem 99 true ⟨"x", .done, 2, some 7, 5⟩ = ⟨"x", .notStarted, 2, some 7, 5⟩ ∧
    TwoLevel.toggleItemMain 99 ⟨1, 1, "y", .done, 2, some 7, 5⟩ =
      ⟨1, 1, "y", .notStarted, 2, some 7, 5⟩ := by
  constructor
  · have h := c7_done_toggle_only_status.1 99 true ⟨"x", .done, 2, some 7, 5⟩ rfl
    simpa using h
  · have h := c7_done_toggle_only_status.2 99 ⟨1, 1, "y", .done, 2, some 7, 5⟩ rfl
    simpa using h

/-- C8 (amended): for every item, regardless of status, the restart command
sets createdAt to now, frozenDuration to 0 and checkedAt to null, and leaves
the status field unchanged (it does not set the status to NotStarted). -/
theorem c8_restart_resets_timing_fields :
    ∀ (now : Int) (it : Item),
      restartItem now it =
        { it with createdAt := now, frozenDuration := 0, checkedAt := none } ∧
      (restartItem now it).status = it.status := by
  intro now it
  exact ⟨rfl, rfl⟩

/-- C8 counterexample: restarting a reachable Done item at instant 10 resets
the timing fields but leaves the status Done, not NotStarted. -/
theorem c8_counterexample :
    (stepCmd 10 (.restart 0) (runTrace doneTrace initModel)).items =
      [⟨"a", .done, 10, none, 0⟩] ∧
    ItemStatus.done ≠ ItemStatus.notStarted := by
  refine ⟨by decide, by decide⟩


/-- C4: pause/resume continuity.  For a model that is not paused and an item
with status Started at index idx, pausing at instant p and resuming at
instant r leaves the item Started with createdAt shifted by
elapsedPaused = r - pausedAt (where pausedAt was set to p by the pause), and
the elapsed time displayed immediately after the resume completes (at instant
r) equals the elapsed time displayed immediately before the pause (at
instant p), for any pause duration. -/
theorem c4_pause_resume_continuity :
    ∀ (m : Model) (p r : Int) (idx : Nat) (it : Item),
      m.paused = false →
      m.items[idx]? = some it →
      it.status = .started →
      (stepCmd p .pauseResume m).pausedAt = p ∧
      (stepCmd r .pauseResume (stepCmd p .pauseResume m)).paused = false ∧
      ∃ it2,
        (stepCmd r .pauseResume (stepCmd p .pauseResume m)).items[idx]? = some it2 ∧
        it2.status = .started ∧
        it2.createdAt = it.createdAt + (r - (stepCmd p .pauseResume m).pausedAt) ∧
        displayDuration r (stepCmd r .pauseResume (stepCmd p .pauseResume m)).paused it2 =
          displayDuration p m.paused it := by
  intro m p r idx it hpf hget hst
  have hm1 : stepCmd p .pauseResume m = (⟨pauseSweep p m.items, true, p⟩ : Model) := by
    simp [stepCmd, hpf]
  have hm2 : stepCmd r .pauseResume (stepCmd p .pauseResume m) =
      (⟨resumeSweep (r - p) (pauseSweep p m.items), false, p⟩ : Model) := by
    rw [hm1]
    simp [stepCmd]
  have hget1 : (pauseSweep p m.items)[idx]? =
      some { it with frozenDuration := p - it.createdAt } := by
    simp [pauseSweep, List.getElem?_map, hget, hst]
  have hget2 : (resumeSweep (r - p) (pauseSweep p m.items))[idx]? =
      some { it with createdAt := it.createdAt + (r - p), frozenDuration := p - it.createdAt } := by
    simp [resumeSweep, List.getElem?_map, hget1, hst]
  rw [hm2, hm1]
  refine ⟨rfl, rfl, ?_⟩
  refine ⟨{ it with createdAt := it.createdAt + (r - p), frozenDuration := p - it.createdAt },
    hget2, hst, by simp, ?_⟩
  rw [hpf]
  simp [displayDuration, hst]
  omega

/-- C4 witness: a Started item with createdAt 2, paused at 7 and resumed at
19, evaluated through the theorem. -/
theorem c4_witness :
    ∃ it2,
      (stepCmd 19 .pauseResume (stepCmd 7 .pauseResume
        (⟨[⟨"x", .started, 2, none, 0⟩], false, 0⟩ : Model))).items[0]? = some it2 ∧
      it2.status = .started ∧
      it2.createdAt = 2 + (19 - (stepCmd 7 .pauseResume
        (⟨[⟨"x", .started, 2, none, 0⟩], false, 0⟩ : Model)).pausedAt) ∧
      displayDuration 19
        (stepCmd 19 .pauseResume (stepCmd 7 .pauseResume
          (⟨[⟨"x", .started, 2, none, 0⟩], false, 0⟩ : Model))).paused it2 =
        displayDuration 7 false ⟨"x", .started, 2, none, 0⟩ := by
  have h := c4_pause_resume_continuity ⟨[⟨"x", .started, 2, none, 0⟩], false, 0⟩ 7 19 0
    ⟨"x", .started, 2, none, 0⟩ rfl rfl rfl
  exact h.2.2

/-- C5: the aggregated task status is a pure function of the multiset of the
child item statuses, and agrees with the specification: Done when the task has
at least one item and every item is Done; otherwise Started when at least one
item is Started or at least one is Done; otherwise NotStarted (in particular a
task with no items is NotStarted). -/
theorem c5_aggregate_matches_spec :
    (∀ l, TwoLevel.aggregateStatus l = TwoLevel.specAggregate l) ∧
    (∀ l1 l2, l1.Perm l2 → TwoLevel.aggregateStatus l1 = TwoLevel.aggregateStatus l2) := by
  constructor
  · intro l
    unfold TwoLevel.aggregateStatus TwoLevel.specAggregate
    have h1 : (l.count ItemStatus.done = l.length ∧ l.length > 0) ↔
        (l ≠ [] ∧ ∀ st ∈ l, st = ItemStatus.done) := by
      rw [List.count_eq_length]
      constructor
      · rintro ⟨h, h2⟩
        exact ⟨List.length_pos.mp h2, fun st hst => (h st hst).symm⟩
      · rintro ⟨h2, h⟩
        exact ⟨fun st hst => (h st hst).symm, List.length_pos.mpr h2⟩
    have h2 : (l.count ItemStatus.started > 0 ∨ l.count ItemStatus.done > 0) ↔
        ((∃ st ∈ l, st = ItemStatus.started) ∨ (∃ st ∈ l, st = ItemStatus.done)) := by
      simp [List.count_pos_iff]
    by_cases hd : l ≠ [] ∧ ∀ st ∈ l, st = ItemStatus.done
    · rw [if_pos (h1.mpr hd), if_pos hd]
    · rw [if_neg (fun hc => hd (h1.mp hc)), if_neg hd]
      by_cases hs : (∃ st ∈ l, st = ItemStatus.started) ∨ (∃ st ∈ l, st = ItemStatus.done)
      · rw [if_pos (h2.mpr hs), if_pos hs]
      · rw [if_neg (fun hc => hs (h2.mp hc)), if_neg hs]
  · intro l1 l2 hp
    unfold TwoLevel.aggregateStatus
    rw [hp.length_eq, hp.count_eq, hp.count_eq]

/-- C5 witness: the spec agreement at a concrete status list and invariance
under a concrete permutation. -/
theorem c5_witness :
    TwoLevel.aggregateStatus [ItemStatus.done, ItemStatus.notStarted] =
      TwoLevel.specAggregate [ItemStatus.done, ItemStatus.notStarted] ∧
    TwoLevel.aggregateStatus [ItemStatus.done, ItemStatus.notStarted] =
      TwoLevel.aggregateStatus [ItemStatus.notStarted, ItemStatus.done] :=
  ⟨c5_aggregate_matches_spec.1 _,
   c5_aggregate_matches_spec.2 _ _ (List.Perm.swap ItemStatus.notStarted ItemStatus.done [])⟩

/-- C6 (amended): every command of the single-level update loop preserves the
invariant that a Started item has null checkedAt.  The claimed equivalence
(checkedAt nonnull iff status Done) does not hold: toggling a Done item to
NotStarted retains the nonnull checkedAt, and restart clears checkedAt while
leaving a Done status in place. -/
theorem c6_started_checkedAt_none_preserved :
    ∀ (t : Int) (c : Cmd) (m : Model),
      (∀ it ∈ m.items, it.status = .started → it.checkedAt = none) →
      ∀ it ∈ (stepCmd t c m).items, it.status = .started → it.checkedAt = none := by
  intro t c m hinv it hit hst
  cases c with
  | add text =>
      simp only [stepCmd, List.mem_append, List.mem_singleton] at hit
      rcases hit with hold | hnew
      · exact hinv it hold hst
      · rw [hnew] at hst
        simp at hst
  | toggle idx =>
      simp only [stepCmd] at hit
      cases hg : m.items[idx]? with
      | none =>
          rw [hg] at hit
          exact hinv it hit hst
      | some p =>
          rw [hg] at hit
          rcases List.mem_or_eq_of_mem_set hit with hold | hnew
          · exact hinv it hold hst
          · cases hp : p.status with
            | notStarted =>
                rw [hnew]
                simp [toggleItem, hp]
            | started =>
                rw [hnew] at hst
                simp [toggleItem, hp] at hst
            | done =>
                rw [hnew] at hst
                simp [toggleItem, hp] at hst
  | restart idx =>
      simp only [stepCmd] at hit
      cases hg : m.items[idx]? with
      | none =>
          rw [hg] at hit
          exact hinv it hit hst
      | some p =>
          rw [hg] at hit
          rcases List.mem_or_eq_of_mem_set hit with hold | hnew
          · exact hinv it hold hst
          · rw [hnew]
            simp [restartItem]
  | pauseResume =>
      simp only [stepCmd] at hit
      by_cases hp : m.paused = false
      · rw [if_pos hp] at hit
        simp only [pauseSweep, List.mem_map] at hit
        rcases hit with ⟨q, hq, rfl⟩
        by_cases hqs : q.status = .started
        · rw [if_pos hqs]
          exact hinv q hq hqs
        · rw [if_neg hqs] at hst ⊢
          exact hinv q hq hst
      · rw [if_neg hp] at hit
        simp only [resumeSweep, List.mem_map] at hit
        rcases hit with ⟨q, hq, rfl⟩
        by_cases hqs : q.status = .started
        · rw [if_pos hqs]
          exact hinv q hq hqs
        · rw [if_neg hqs] at hst ⊢
          exact hinv q hq hst

/-- C6 counterexample: after the reachable toggle cycle add, start, stop,
untoggle, the item has status NotStarted and checkedAt some 5, so the claimed
equivalence between nonnull checkedAt and status Done fails. -/
theorem c6_counterexample :
    ¬ ∀ it ∈ (runTrace toggleCycleTrace initModel).items,
        (it.checkedAt ≠ none ↔ it.status = .done) := by
  intro h
  have := h ⟨"a", .notStarted, 0, some 5, 5⟩ (by decide)
  simp at this

/-- C6 witness: the preservation theorem applied at a concrete toggle that
starts an item carrying over frozenDuration 3 at instant 10. -/
theorem c6_witness :
    (⟨"x", ItemStatus.started, 7, none, 3⟩ : Item).checkedAt = none :=
  c6_started_checkedAt_none_preserved 10 (.toggle 0)
    ⟨[⟨"x", .notStarted, 0, none, 3⟩], false, 0⟩ (by decide)
    ⟨"x", .started, 7, none, 3⟩ (by decide) rfl

/-- When the clock does not advance between readings, the per-item pause loop
coincides with the single-snapshot pause sweep. -/
theorem pauseLoop_const (now : Int) :
    ∀ (k : Nat) (items : List Item), pauseLoop (fun _ => now) k items = pauseSweep now items := by
  intro k items
  induction items generalizing k with
  | nil => simp [pauseLoop, pauseSweep]
  | cons it rest ih =>
      by_cases h : it.status = .started
      · simp [pauseLoop, pauseSweep, h, ih]
      · simp [pauseLoop, pauseSweep, h]
        simpa [pauseSweep] using ih k

/-- C9 counterexample: with a clock that advances by one unit per time.Now()
call, pausing two Started items that share createdAt 0 records the different
frozenDurations 1 and 2, because the pause loop computes each frozenDuration
with time.Since, that is, with a fresh clock reading per item rather than the
single now snapshot; no single now value reproduces the result. -/
theorem c9_counterexample :
    (pauseResumeClocked unitClock twoStartedModel).items.map Item.frozenDuration = [1, 2] ∧
    twoStartedModel.items.map Item.createdAt = [0, 0] ∧
    ¬ ∃ nowv : Int, (pauseResumeClocked unitClock twoStartedModel).items =
        pauseSweep nowv twoStartedModel.items := by
  refine ⟨by decide, by decide, ?_⟩
  rintro ⟨n, h⟩
  simp [pauseResumeClocked, pauseSweep, pauseLoop, unitClock, twoStartedModel] at h
  omega

/-- C9 (amended): the resume sweep uses the single now snapshot taken at the
start of the command for every item (it coincides with the single-snapshot
semantics evaluated at reading 0), while the pause sweep agrees with the
single-snapshot semantics only when the clock does not advance during the
sweep (each Started item is assigned its own subsequent time.Since reading;
pausedAt does use the snapshot). -/
theorem c9_resume_single_snapshot :
    (∀ (clock : Nat → Int) (m : Model), m.paused = true →
        pauseResumeClocked clock m = stepCmd (clock 0) .pauseResume m) ∧
    (∀ (now : Int) (m : Model), m.paused = false →
        pauseResumeClocked (fun _ => now) m = stepCmd now .pauseResume m) := by
  constructor
  · intro clock m hp
    simp [pauseResumeClocked, stepCmd, hp]
  · intro now m hp
    simp [pauseResumeClocked, stepCmd, hp, pauseLoop_const]

/-- C9 witness: both halves of the amended statement at concrete inputs. -/
theorem c9_witness :
    pauseResumeClocked unitClock (⟨[⟨"x", .started, 1, none, 4⟩], true, 3⟩ : Model) =
      stepCmd (unitClock 0) .pauseResume (⟨[⟨"x", .started, 1, none, 4⟩], true, 3⟩ : Model) ∧
    pauseResumeClocked (fun _ => (7 : Int)) twoStartedModel =
      stepCmd 7 .pauseResume twoStartedModel :=
  ⟨c9_resume_single_snapshot.1 unitClock _ rfl,
   c9_resume_single_snapshot.2 7 twoStartedModel rfl⟩

/-- C10: refuted, the code aborts with an index out of range.  Running the
two-level update loop on the key sequence escCursorTrace (create one task,
select it, add two items, move the cursor down, esc back to the task view,
enter with empty input) makes the enter handler evaluate m.tasks at cursor 1
while only one task exists: esc does not reset the cursor, so the indexing
guard len(m.tasks) > 0 does not keep the cursor in bounds. -/
theorem c10_cursor_out_of_range :
    TwoLevel.isError (TwoLevel.runTrace2 TwoLevel.escCursorTrace TwoLevel.initModel2) = true := by
  decide

/-- Letting time pass preserves the ghost invariant. -/
theorem gAdvance_inv (t : Int) (s : GState) (hInv : gInv s) (ht : s.last ≤ t) :
    gInv (gAdvance t s) := by
  obtain ⟨hpa, hitems⟩ := hInv
  constructor
  · intro hp
    exact le_trans (hpa hp) ht
  · intro q hq
    simp only [gAdvance, List.mem_map] at hq
    obtain ⟨p, hpmem, rfl⟩ := hq
    obtain ⟨h0, h1, h2, h3, h4⟩ := hitems p hpmem
    by_cases hc : p.1.status = .started ∧ s.paused = false
    · rw [if_pos hc]
      unfold itemInv
      dsimp only [gAdvance]
      refine ⟨by omega, ?_, ?_, ?_, ?_⟩
      · intro hns
        rw [hns] at hc
        exact absurd hc.1 (by decide)
      · intro hd
        rw [hd] at hc
        exact absurd hc.1 (by decide)
      · intro _ _
        have := h3 hc.1 hc.2
        omega
      · intro _ hpt
        rw [hpt] at hc
        exact absurd hc.2 (by decide)
    · rw [if_neg hc]
      unfold itemInv
      dsimp only [gAdvance]
      refine ⟨h0, h1, h2, ?_, h4⟩
      intro hs hpf
      exact absurd ⟨hs, hpf⟩ hc

/-- The start-not-during-pause side condition is insensitive to time passing. -/
theorem startOkayG_gAdvance (t : Int) (s : GState) (c : Cmd) :
    startOkayG (gAdvance t s) c = startOkayG s c := by
  cases c with
  | add text => rfl
  | restart idx => rfl
  | pauseResume => rfl
  | toggle idx =>
      simp only [startOkayG, gAdvance, List.getElem?_map]
      cases hg : s.items[idx]? with
      | none => rfl
      | some p =>
          simp only [Option.map_some']
          by_cases hc : p.1.status = .started ∧ s.paused = false
          · rw [if_pos hc]
          · rw [if_neg hc]

/-- Applying a command at the instant the ghost clock has reached preserves
the ghost invariant, under the start-not-during-pause side condition. -/
theorem gApply_inv (t : Int) (c : Cmd) (s : GState) (hInv : gInv s) (hlast : s.last = t)
    (hok : startOkayG s c = true) : gInv (gApply t c s) := by
  obtain ⟨hpa, hitems⟩ := hInv
  cases c with
  | add text =>
      refine ⟨hpa, ?_⟩
      intro q hq
      simp only [gApply, List.mem_append, List.mem_singleton] at hq
      rcases hq with hold | rfl
      · exact hitems q hold
      · simp [itemInv]
  | toggle idx =>
      cases hg : s.items[idx]? with
      | none =>
          simp only [gApply, hg]
          exact ⟨hpa, hitems⟩
      | some p =>
          have hok2 : ¬ (p.1.status = .notStarted ∧ s.paused = true) := by
            simp only [startOkayG, hg] at hok
            by_cases hc : p.1.status = .notStarted ∧ s.paused = true
            · rw [if_pos hc] at hok
              exact absurd hok (by decide)
            · exact hc
          obtain ⟨h0, h1, h2, h3, h4⟩ := hitems p (List.getElem?_mem hg)
          simp only [gApply, hg]
          refine ⟨hpa, ?_⟩
          intro q hq
          rcases List.mem_or_eq_of_mem_set hq with hold | rfl
          · exact hitems q hold
          · cases hst : p.1.status with
            | notStarted =>
                have hpf : s.paused = false := by
                  cases hpb : s.paused with
                  | false => rfl
                  | true => exact absurd ⟨hst, hpb⟩ hok2
                have ha : p.2 = p.1.frozenDuration := h1 hst
                unfold itemInv
                dsimp only
                simp only [toggleItem, hst]
                refine ⟨h0, ?_, ?_, ?_, ?_⟩
                · intro h
                  simp at h
                · intro h
                  simp at h
                · intro _ _
                  split <;> omega
                · intro _ hpt
                  rw [hpt] at hpf
                  exact absurd hpf (by decide)
            | started =>
                unfold itemInv
                dsimp only
                simp only [toggleItem, hst]
                refine ⟨h0, ?_, ?_, ?_, ?_⟩
                · intro h
                  simp at h
                · intro _
                  by_cases hpb : s.paused = true
                  · obtain ⟨h4a, h4b⟩ := h4 hst hpb
                    rw [if_pos hpb]
                    omega
                  · have hpf : s.paused = false := by
                      cases hb : s.paused
                      · rfl
                      · exact absurd hb hpb
                    have h3x := h3 hst hpf
                    rw [if_neg hpb]
                    omega
                · intro h
                  simp at h
                · intro h
                  simp at h
            | done =>
                have ha : p.2 = p.1.frozenDuration := h2 hst
                unfold itemInv
                dsimp only
                simp only [toggleItem, hst]
                refine ⟨h0, ?_, ?_, ?_, ?_⟩
                · intro _
                  exact ha
                · intro h
                  simp at h
                · intro h
                  simp at h
                · intro h
                  simp at h
  | restart idx =>
      simp only [startOkayG] at hok
      exact absurd hok (by decide)
  | pauseResume =>
      by_cases hpb : s.paused = false
      · simp only [gApply, if_pos hpb]
        constructor
        · intro _
          dsimp only
          omega
        · intro q hq
          simp only [List.mem_map] at hq
          obtain ⟨p, hpmem, rfl⟩ := hq
          obtain ⟨h0, h1, h2, h3, h4⟩ := hitems p hpmem
          by_cases hst : p.1.status = .started
          · rw [if_pos hst]
            have h3x := h3 hst hpb
            unfold itemInv
            dsimp only
            refine ⟨h0, ?_, ?_, ?_, ?_⟩
            · intro h
              exact absurd (hst.symm.trans h) (by decide)
            · intro h
              exact absurd (hst.symm.trans h) (by decide)
            · intro _ h
              exact absurd h (by decide)
            · intro _ _
              constructor
              · omega
              · omega
          · rw [if_neg hst]
            unfold itemInv
            dsimp only
            refine ⟨h0, h1, h2, ?_, ?_⟩
            · intro hs _
              exact absurd hs hst
            · intro hs _
              exact absurd hs hst
      · have hpt : s.paused = true := by
          cases h : s.paused with
          | false => exact absurd h hpb
          | true => rfl
        simp only [gApply, if_neg hpb]
        constructor
        · intro h
          simp at h
        · intro q hq
          simp only [List.mem_map] at hq
          obtain ⟨p, hpmem, rfl⟩ := hq
          obtain ⟨h0, h1, h2, h3, h4⟩ := hitems p hpmem
          by_cases hst : p.1.status = .started
          · rw [if_pos hst]
            obtain ⟨h4a, h4b⟩ := h4 hst hpt
            have hpax := hpa hpt
            unfold itemInv
            dsimp only
            refine ⟨h0, ?_, ?_, ?_, ?_⟩
            · intro h
              exact absurd (hst.symm.trans h) (by decide)
            · intro h
              exact absurd (hst.symm.trans h) (by decide)
            · intro _ _
              omega
            · intro _ h
              exact absurd h (by decide)
          · rw [if_neg hst]
            unfold itemInv
            dsimp only
            refine ⟨h0, h1, h2, ?_, ?_⟩
            · intro hs _
              exact absurd hs hst
            · intro hs _
              exact absurd hs hst

/-- Every reachable ghost state satisfies the ghost invariant. -/
theorem reachC3_inv : ∀ s, ReachC3 s → gInv s := by
  intro s h
  induction h with
  | init t0 =>
      constructor
      · intro h
        simp at h
      · intro q hq
        simp at hq
  | step s t c hr hle hok ih =>
      have h1 := gAdvance_inv t s ih hle
      have h2 : startOkayG (gAdvance t s) c = true := by
        rw [startOkayG_gAdvance]
        exact hok
      exact gApply_inv t c (gAdvance t s) h1 rfl h2

/-- The ghost semantics projects onto the program semantics: forgetting the
accumulators, gstep is exactly stepCmd. -/
theorem toModel_gAdvance (t : Int) (s : GState) : toModel (gAdvance t s) = toModel s := by
  unfold toModel gAdvance
  simp only [List.map_map]
  congr 1
  apply List.map_congr_left
  intro p _
  by_cases h : p.1.status = .started ∧ s.paused = false
  · simp [h]
  · simp [h]

/-- The ghost step simulates the program step: projecting the ghost state
after gstep equals stepCmd applied to the projection. -/
theorem toModel_gstep (t : Int) (c : Cmd) (s : GState) :
    toModel (gstep t c s) = stepCmd t c (toModel s) := by
  have hadv : stepCmd t c (toModel s) = stepCmd t c (toModel (gAdvance t s)) := by
    rw [toModel_gAdvance]
  rw [gstep, hadv]
  generalize gAdvance t s = s2
  cases c with
  | add text =>
      simp [gApply, stepCmd, toModel]
  | toggle idx =>
      simp only [gApply, stepCmd, toModel]
      cases hg : s2.items[idx]? with
      | none => simp [List.getElem?_map, hg]
      | some p => simp [List.getElem?_map, hg, List.map_set]
  | restart idx =>
      simp only [gApply, stepCmd, toModel]
      cases hg : s2.items[idx]? with
      | none => simp [List.getElem?_map, hg]
      | some p => simp [List.getElem?_map, hg, List.map_set]
  | pauseResume =>
      by_cases hp : s2.paused = false
      · simp only [gApply, stepCmd, toModel, if_pos hp, pauseSweep, List.map_map]
        congr 1
        apply List.map_congr_left
        intro p _
        by_cases h : p.1.status = .started
        · simp [h]
        · simp [h]
      · simp only [gApply, stepCmd, toModel, if_neg hp, resumeSweep, List.map_map]
        congr 1
        apply List.map_congr_left
        intro p _
        by_cases h : p.1.status = .started
        · simp [h]
        · simp [h]

/-- C3 (amended): for every ghost state reachable by a monotone-time sequence
of add, toggle, and pause/resume commands in which no item is toggled from
NotStarted to Started while the global pause is active, every item with
status Done has frozenDuration exactly equal to its accrued active time: the
sum of the durations of all intervals during which the item was Started and
the system was not globally paused, independent of how many pause/resume
cycles occurred.  (The original claim, without the no-start-during-pause
proviso, is refuted by the counterexample.) -/
theorem c3_done_frozen_equals_active_time :
    ∀ (s : GState), ReachC3 s →
      ∀ p ∈ s.items, p.1.status = .done → p.1.frozenDuration = p.2 := by
  intro s hs p hp hd
  have h := reachC3_inv s hs
  exact ((h.2 p hp).2.2.1 hd).symm

/-- C3 witness: the scenario add at 0, start at 0, pause at 5, resume at 15,
stop at 20 reaches Done with frozenDuration 10, equal to the accrued active
time (5 before the pause, 5 after the resume). -/
theorem c3_witness :
    ((⟨"a", ItemStatus.done, 10, some 20, 10⟩ : Item), (10 : Int)).1.frozenDuration =
      ((⟨"a", ItemStatus.done, 10, some 20, 10⟩ : Item), (10 : Int)).2 := by
  have h0 : ReachC3 (⟨[], false, 0, 0⟩ : GState) := ReachC3.init 0
  have h1 := ReachC3.step _ 0 (.add "a") h0 (by decide) (by decide)
  have h2 := ReachC3.step _ 0 (.toggle 0) h1 (by decide) (by decide)
  have h3 := ReachC3.step _ 5 .pauseResume h2 (by decide) (by decide)
  have h4 := ReachC3.step _ 15 .pauseResume h3 (by decide) (by decide)
  have h5 := ReachC3.step _ 20 (.toggle 0) h4 (by decide) (by decide)
  have hreach : ReachC3 pauseCycleState := h5
  exact c3_done_frozen_equals_active_time pauseCycleState hreach
    (⟨"a", .done, 10, some 20, 10⟩, 10) (by decide) rfl

/-- C3 counterexample: in the trace add at 0, pause at 0, start at 10,
resume at 20, stop at 40 (monotone times, only toggle and pause/resume
commands), the item reaches Done with frozenDuration 10, while its accrued
active time is 20 (the interval from the resume at 20 to the stop at 40): the
resume sweep shifts createdAt of the item started during the pause by the full
pause length, losing the span from the pause start to the toggle. -/
theorem c3_counterexample :
    (gRunTrace startDuringPauseTrace ⟨[], false, 0, 0⟩).items =
      [(⟨"a", .done, 30, some 40, 10⟩, 20)] ∧ (10 : Int) ≠ 20 := by
  exact ⟨by decide, by decide⟩
